import Mathlib

/-!
Shallow embedding of `src/main.py` (MDict Audio API) and verification of the
spec's claims about it.

The program has three engineered pieces:
  * `get_api_key` — the API-key guard (header `X-API-Key`, falling back to the
    `?key=` query parameter, compared against the `API_KEY` environment value);
  * `extract_audio_and_ext` — queries the text (MDX) archive, regex-extracts a
    `sound://` audio reference from the first record's payload, normalizes it
    into a backslash-separated MDD lookup key, queries the binary (MDD)
    archive (with one fallback retry on the key with the leading backslash
    stripped) and returns the first record's bytes together with the
    lowercased extension;
  * `get_word_audio` — the `/audio/{word}` endpoint composing guard, engine
    initialization check, extraction and a fixed extension-to-MIME table.

Strings from the Python side are modelled as `List Char`; byte strings as
`List Nat`.  Python truthiness of optional strings (`None` and `""` are
falsy) is modelled explicitly.  The regular-expression searches of the source
are embedded as executable functions whose behaviour coincides with the
regexes on the involved patterns (leftmost match, greedy `[^"]+`,
case-insensitive literals via ASCII `Char.toLower`).
-/

deriving instance DecidableEq for Except

namespace MdictAudio

/-- The character list of a string literal (Python `str` values). -/
def strL (s : String) : List Char := s.data

/-- A record returned by the text (MDX) archive query; `data` is the markup
payload (`records[0].entry.data` in the source). -/
structure TextRecord where
  data : List Char
deriving DecidableEq

/-- A record returned by the binary (MDD) archive query; `data` is the raw
audio bytes. -/
structure AudioRecord where
  data : List Nat
deriving DecidableEq

/-- The text-archive query engine: key and `ignore_case` flag to records. -/
abbrev MdxQuerier := List Char → Bool → List TextRecord

/-- The binary-archive query engine: key and `ignore_case` flag to records. -/
abbrev MddQuerier := List Char → Bool → List AudioRecord

/-- Observable HTTP outcomes of the `/audio/{word}` route: the 403 of the key
guard, the 500 of uninitialized engines, the 404, and a 200 carrying the body
bytes and the `Content-Type` value. -/
inductive HttpResult where
  | forbidden
  | serverError
  | notFound
  | ok (body : List Nat) (mediaType : String)
deriving DecidableEq

/-- ASCII lowercasing of a character list (Python `str.lower()` /
`re.IGNORECASE` on the ASCII data involved here). -/
def lowerL (l : List Char) : List Char := l.map Char.toLower

/-- Case-insensitive "starts with": the first `pat.length` characters of `s`
lowercase to the lowercased pattern. -/
def ciStartsWith (pat s : List Char) : Bool :=
  lowerL (s.take pat.length) == lowerL pat

/-- The lowercased extensions admitted by the search pattern
`(mp3|spx|wav|ogg)`. -/
def audioExts : List (List Char) := [strL "mp3", strL "spx", strL "wav", strL "ogg"]

/-- One attempted match of `re.search(r'href="(sound://[^\x22]+\.(mp3|spx|wav|ogg))"', _, re.IGNORECASE)`
anchored at the head of `s`.  A match needs the case-insensitive literal
`href="` then `sound://`, then the greedy `[^"]+` run up to the next quote
(which must exist), ending in a dot and a supported extension with at least
one character before the dot.  Returns `(group 1, group 2)` in original case:
the full `sound://...` path and the extension. -/
def matchAt (s : List Char) : Option (List Char × List Char) :=
  if ciStartsWith (strL "href=\"") s ∧ ciStartsWith (strL "sound://") (s.drop 6) then
    let rest := s.drop 6
    let afterScheme := rest.drop 8
    let body := afterScheme.takeWhile (fun c => c != '"')
    if body.length < afterScheme.length ∧ 5 ≤ body.length then
      match body.drop (body.length - 4) with
      | '.' :: extRaw =>
          if lowerL extRaw ∈ audioExts then some (rest.take 8 ++ body, extRaw) else none
      | _ => none
    else none
  else none

/-- Embedding of `re.search` for the audio-reference pattern: try every start position from
the left, first full match wins. -/
def findAudioRef : List Char → Option (List Char × List Char)
  | [] => none
  | c :: rest =>
    match matchAt (c :: rest) with
    | some r => some r
    | none => findAudioRef rest

/-- Embedding of `re.sub(r'^sound:(//)?', '', raw_path, flags=re.IGNORECASE)`: strip one
leading `sound://` (greedy, tried first) or `sound:` case-insensitively. -/
def stripSound (p : List Char) : List Char :=
  if ciStartsWith (strL "sound://") p then p.drop 8
  else if ciStartsWith (strL "sound:") p then p.drop 6
  else p

/-- Embedding of `clean_path.replace("/", "\x5c")`: every forward slash becomes a
backslash. -/
def replaceSlash (l : List Char) : List Char :=
  l.map (fun c => if c = '/' then '\\' else c)

/-- Worker for `re.sub(r'\x5c+', r'\x5c', s)`: the flag records whether the
previously emitted character was a backslash, so every maximal run of
backslashes is emitted as a single one. -/
def collapseBSAux : Bool → List Char → List Char
  | _, [] => []
  | prevBS, c :: rest =>
    if c = '\\' then
      if prevBS then collapseBSAux true rest
      else '\\' :: collapseBSAux true rest
    else c :: collapseBSAux false rest

/-- Embedding of `re.sub(r'\x5c+', r'\x5c', s)`: collapse every run of consecutive
backslashes into exactly one. -/
def collapseBS (l : List Char) : List Char := collapseBSAux false l

/-- Lines 110–112 of the source: the MDD lookup key derived from the raw
matched path — strip the `sound:` scheme, prefix one backslash, replace
forward slashes by backslashes, collapse runs of backslashes. -/
def mddKeyOf (raw_path : List Char) : List Char :=
  collapseBS ('\\' :: replaceSlash (stripSound raw_path))

/-- Embedding of `mdd_key.lstrip("\x5c")`: drop every leading backslash (the fallback key
of line 121). -/
def lstripBS (l : List Char) : List Char := l.dropWhile (fun c => c == '\\')

/-- Lines 117–123: the binary-archive records actually used — the
case-sensitive query with the primary key, retried once with the
leading-backslash-stripped key when the first query returns nothing. -/
def mddRecords (q_mdd : MddQuerier) (key : List Char) : List AudioRecord :=
  match q_mdd key false with
  | [] => q_mdd (lstripBS key) false
  | l => l

/-- The function `extract_audio_and_ext` (lines 87–129): query MDX case-insensitively,
regex-extract the first audio reference from the first record's payload,
lowercase the matched extension, build the MDD key from the raw path, query
MDD (with the one fallback retry), and return the first record's bytes with
the lowercased extension — or `(None, None)` at each failure point. -/
def extract_audio_and_ext (word : List Char) (q_mdx : MdxQuerier) (q_mdd : MddQuerier) :
    Option (List Nat) × Option (List Char) :=
  match q_mdx word true with
  | [] => (none, none)
  | r :: _ =>
    match findAudioRef r.data with
    | none => (none, none)
    | some (raw_path, extRaw) =>
      let ext := lowerL extRaw
      match mddRecords q_mdd (mddKeyOf raw_path) with
      | [] => (none, none)
      | a :: _ => (some a.data, some ext)

/-- Python truthiness of an optional string: `None` and `""` are falsy. -/
def pyTruthy (o : Option String) : Bool :=
  match o with
  | none => false
  | some s => s != ""

/-- Python `a or b` on optional strings. -/
def pyOr (a b : Option String) : Option String :=
  if pyTruthy a then a else b

/-- The function `get_api_key` (lines 67–84): `token = header_key or query_key`; fail with
403 when the token is falsy or differs from the expected `API_KEY` value
(itself optional, since the environment is read fresh per request), else
return the token. -/
def get_api_key (header_key query_key api_key : Option String) : Except String String :=
  match pyOr header_key query_key with
  | none => Except.error "Invalid or missing API Key"
  | some s =>
    if s = "" ∨ api_key ≠ some s then Except.error "Invalid or missing API Key"
    else Except.ok s

/-- Python `repr` of an optional string as rendered into the failure log
(`repr(None) = "None"`; a string is wrapped in single quotes — escaping of
exotic characters inside the string is not modelled). -/
def pyRepr (o : Option String) : String :=
  match o with
  | none => "None"
  | some s => "\x27" ++ s ++ "\x27"

/-- Line 80: `token[:4] + "..." if token and len(token) > 4 else repr(token)`. -/
def tokenHint (token : Option String) : String :=
  match token with
  | some t => if t ≠ "" ∧ 4 < t.length then t.take 4 ++ "..." else pyRepr (some t)
  | none => pyRepr none

/-- The `api_key[:4] if api_key else None` fragment of line 81 as rendered
into the log line. -/
def expectedHint (api_key : Option String) : String :=
  match api_key with
  | some k => if k ≠ "" then k.take 4 else "None"
  | none => "None"

/-- Line 81: the log line printed exactly when the credential check fails. -/
def auth_failure_log (token api_key : Option String) : String :=
  "AUTH FAILURE: Received token hint \x27" ++ tokenHint token ++
    "\x27, expected key starting with \x27" ++ expectedHint api_key ++ "...\x27"

/-- The fixed extension-to-MIME table of lines 146–153, including the
`.get(ext, 'application/octet-stream')` default. -/
def mimeGet (ext : List Char) : String :=
  if ext = strL "mp3" then "audio/mpeg"
  else if ext = strL "spx" then "audio/speex"
  else if ext = strL "wav" then "audio/wav"
  else if ext = strL "ogg" then "audio/ogg"
  else "application/octet-stream"

/-- The function `get_word_audio` (lines 132–154), after the key guard: 500 when either
engine handle is unset, 404 when the extraction yields a falsy payload or
extension (`if not audio_bytes or not ext`), else 200 with the bytes and the
mapped MIME type. -/
def get_word_audio (word : List Char)
    (querier_mdx : Option MdxQuerier) (querier_mdd : Option MddQuerier) : HttpResult :=
  match querier_mdx, querier_mdd with
  | some q_mdx, some q_mdd =>
    match extract_audio_and_ext word q_mdx q_mdd with
    | (some audio_bytes, some ext) =>
      if audio_bytes = [] ∨ ext = [] then HttpResult.notFound
      else HttpResult.ok audio_bytes (mimeGet ext)
    | _ => HttpResult.notFound
  | _, _ => HttpResult.serverError

/-- The whole `/audio/{word}` request: the key guard runs first (`Depends`),
a failing guard yields the 403 before the endpoint body runs. -/
def handle_request (header_key query_key api_key : Option String) (word : List Char)
    (querier_mdx : Option MdxQuerier) (querier_mdd : Option MddQuerier) : HttpResult :=
  match get_api_key header_key query_key api_key with
  | Except.error _ => HttpResult.forbidden
  | Except.ok _ => get_word_audio word querier_mdx querier_mdd

/-- Decides whether a character list contains two consecutive backslashes
(the "doubled canonical separator" of the spec's invariant). -/
def hasDoubleSep : List Char → Bool
  | [] => false
  | [_] => false
  | a :: b :: rest => (a == '\\' && b == '\\') || hasDoubleSep (b :: rest)

/-- A sample text payload carrying one audio reference. -/
def fbPayload : List Char := strL "href=\"sound://voc/d/a.mp3\""

/-- A text engine resolving every word to the sample payload. -/
def fbQx : MdxQuerier := fun _ _ => [⟨fbPayload⟩]

/-- The sample payload's Binary Lookup Key with its leading separator
stripped. -/
def fbAltKey : List Char := strL "voc\\d\\a.mp3"

/-- A text engine with an empty archive. -/
def emptyQx : MdxQuerier := fun _ _ => []

/-- A binary engine that misses the primary key and answers the fallback key
with one record whose payload is empty. -/
def fbQdEmptyRec : MddQuerier := fun key _ => if key = fbAltKey then [⟨[]⟩] else []

/-- A binary engine that misses the primary key and answers the fallback key
with one record carrying the bytes `[3, 4]`. -/
def fbQdGood : MddQuerier := fun key _ => if key = fbAltKey then [⟨[3, 4]⟩] else []

/-- A binary engine answering every key with one record whose payload is
empty. -/
def alwaysEmptyRecQd : MddQuerier := fun _ _ => [⟨[]⟩]

lemma collapseBSAux_true_head (l : List Char) :
    (collapseBSAux true l).head? ≠ some '\\' := by
  induction l with
  | nil => simp [collapseBSAux]
  | cons c rest ih =>
    by_cases h : c = '\\'
    · simpa [collapseBSAux, h] using ih
    · simp [collapseBSAux, h]

lemma hasDoubleSep_cons (a : Char) (X : List Char)
    (h1 : a = '\\' → X.head? ≠ some '\\') (h2 : hasDoubleSep X = false) :
    hasDoubleSep (a :: X) = false := by
  cases X with
  | nil => rfl
  | cons x xs =>
    by_cases ha : a = '\\'
    · have hx : x ≠ '\\' := by
        intro hxx
        exact h1 ha (by simp [hxx])
      simp [hasDoubleSep, ha, hx, h2]
    · simp [hasDoubleSep, ha, h2]

lemma collapseBSAux_noDouble (l : List Char) :
    ∀ b : Bool, hasDoubleSep (collapseBSAux b l) = false := by
  induction l with
  | nil => intro b; rfl
  | cons c rest ih =>
    intro b
    by_cases h : c = '\\'
    · cases b with
      | true => simpa [collapseBSAux, h] using ih true
      | false =>
        have : collapseBSAux false (c :: rest) = '\\' :: collapseBSAux true rest := by
          simp [collapseBSAux, h]
        rw [this]
        exact hasDoubleSep_cons _ _ (fun _ => collapseBSAux_true_head rest) (ih true)
    · have : collapseBSAux b (c :: rest) = c :: collapseBSAux false rest := by
        simp [collapseBSAux, h]
      rw [this]
      exact hasDoubleSep_cons _ _ (fun hc => absurd hc h) (ih false)

lemma hasDoubleSep_tail (a : Char) (l : List Char) (h : hasDoubleSep (a :: l) = false) :
    hasDoubleSep l = false := by
  cases l with
  | nil => rfl
  | cons b rest =>
    simp only [hasDoubleSep, Bool.or_eq_false_iff] at h
    exact h.2

lemma hasDoubleSep_dropWhile (p : Char → Bool) (l : List Char)
    (h : hasDoubleSep l = false) : hasDoubleSep (l.dropWhile p) = false := by
  induction l with
  | nil => exact h
  | cons a rest ih =>
    rw [List.dropWhile_cons]
    by_cases hp : p a
    · rw [if_pos hp]
      exact ih (hasDoubleSep_tail a rest h)
    · rw [if_neg hp]
      exact h

lemma mem_collapseBSAux {x : Char} :
    ∀ (b : Bool) (l : List Char), x ∈ collapseBSAux b l → x ∈ l := by
  intro b l
  induction l generalizing b with
  | nil => intro h; exact h
  | cons c rest ih =>
    intro h
    by_cases hc : c = '\\'
    · cases b with
      | true =>
        rw [show collapseBSAux true (c :: rest) = collapseBSAux true rest by
          simp [collapseBSAux, hc]] at h
        exact List.mem_cons_of_mem _ (ih true h)
      | false =>
        rw [show collapseBSAux false (c :: rest) = '\\' :: collapseBSAux true rest by
          simp [collapseBSAux, hc]] at h
        rcases List.mem_cons.mp h with h | h
        · exact List.mem_cons.mpr (Or.inl (h.trans hc.symm))
        · exact List.mem_cons_of_mem _ (ih true h)
    · rw [show collapseBSAux b (c :: rest) = c :: collapseBSAux false rest by
        simp [collapseBSAux, hc]] at h
      rcases List.mem_cons.mp h with h | h
      · exact List.mem_cons.mpr (Or.inl h)
      · exact List.mem_cons_of_mem _ (ih false h)

lemma not_slash_mem_replaceSlash (l : List Char) : '/' ∉ replaceSlash l := by
  intro h
  simp only [replaceSlash, List.mem_map] at h
  rcases h with ⟨c, _, hc⟩
  by_cases h2 : c = '/'
  · rw [if_pos h2] at hc
    exact absurd hc (by decide)
  · rw [if_neg h2] at hc
    exact h2 hc

lemma mddKeyOf_head (raw : List Char) : (mddKeyOf raw).head? = some '\\' := by
  simp [mddKeyOf, collapseBS, collapseBSAux]

lemma mddKeyOf_noDouble (raw : List Char) : hasDoubleSep (mddKeyOf raw) = false :=
  collapseBSAux_noDouble _ false

lemma mddKeyOf_no_slash (raw : List Char) : '/' ∉ mddKeyOf raw := by
  intro h
  have h2 := mem_collapseBSAux false _ h
  rcases List.mem_cons.mp h2 with h3 | h3
  · exact absurd h3 (by decide)
  · exact not_slash_mem_replaceSlash _ h3

lemma matchAt_ext_mem {s path extRaw : List Char}
    (h : matchAt s = some (path, extRaw)) : lowerL extRaw ∈ audioExts := by
  rw [matchAt] at h
  dsimp only at h
  split at h
  · split at h
    · split at h
      · split at h
        · cases h
          assumption
        · exact absurd h (by simp)
      · exact absurd h (by simp)
    · exact absurd h (by simp)
  · exact absurd h (by simp)

lemma findAudioRef_ext_mem {s path extRaw : List Char}
    (h : findAudioRef s = some (path, extRaw)) : lowerL extRaw ∈ audioExts := by
  induction s with
  | nil => exact absurd h (by simp [findAudioRef])
  | cons c rest ih =>
    rw [findAudioRef] at h
    cases hm : matchAt (c :: rest) with
    | some r =>
      simp only [hm] at h
      obtain ⟨p, e⟩ := r
      cases h
      exact matchAt_ext_mem hm
    | none =>
      simp only [hm] at h
      exact ih h

lemma mem_audioExts_ne_nil {e : List Char} (h : e ∈ audioExts) : e ≠ [] := by
  simp only [audioExts, strL, List.mem_cons, List.not_mem_nil, or_false] at h
  rcases h with h | h | h | h <;> subst h <;> decide

lemma extract_eq_some {word : List Char} {q_mdx : MdxQuerier} {q_mdd : MddQuerier}
    {b : List Nat} {e : List Char}
    (h : extract_audio_and_ext word q_mdx q_mdd = (some b, some e)) :
    ∃ r rs raw_path extRaw a arest,
      q_mdx word true = r :: rs ∧
      findAudioRef r.data = some (raw_path, extRaw) ∧
      e = lowerL extRaw ∧
      mddRecords q_mdd (mddKeyOf raw_path) = a :: arest ∧
      b = a.data := by
  rw [extract_audio_and_ext] at h
  cases hq : q_mdx word true with
  | nil => simp only [hq] at h; exact absurd h (by simp)
  | cons r rs =>
    simp only [hq] at h
    cases hf : findAudioRef r.data with
    | none => simp only [hf] at h; exact absurd h (by simp)
    | some pe =>
      obtain ⟨raw_path, extRaw⟩ := pe
      simp only [hf] at h
      cases hm : mddRecords q_mdd (mddKeyOf raw_path) with
      | nil => simp only [hm] at h; exact absurd h (by simp)
      | cons a arest =>
        simp only [hm] at h
        simp only [Prod.mk.injEq, Option.some.injEq] at h
        exact ⟨r, rs, raw_path, extRaw, a, arest, rfl, hf, h.2.symm, hm, h.1.symm⟩

lemma mddRecords_eq_nil_iff (q_mdd : MddQuerier) (key : List Char) :
    mddRecords q_mdd key = [] ↔ q_mdd key false = [] ∧ q_mdd (lstripBS key) false = [] := by
  rw [mddRecords]
  cases hp : q_mdd key false with
  | nil => simp
  | cons a l => simp

lemma handle_request_auth_ok {hk qk ak : Option String} {tok : String}
    (hauth : get_api_key hk qk ak = Except.ok tok) (word : List Char)
    (mqx : Option MdxQuerier) (mqd : Option MddQuerier) :
    handle_request hk qk ak word mqx mqd = get_word_audio word mqx mqd := by
  simp only [handle_request, hauth]

lemma get_word_audio_no_mdx (word : List Char) (q_mdx : MdxQuerier) (q_mdd : MddQuerier)
    (hq : q_mdx word true = []) :
    get_word_audio word (some q_mdx) (some q_mdd) = HttpResult.notFound := by
  simp only [get_word_audio, extract_audio_and_ext, hq]

lemma get_word_audio_no_match (word : List Char) (q_mdx : MdxQuerier) (q_mdd : MddQuerier)
    (r : TextRecord) (rs : List TextRecord)
    (hq : q_mdx word true = r :: rs) (hf : findAudioRef r.data = none) :
    get_word_audio word (some q_mdx) (some q_mdd) = HttpResult.notFound := by
  simp only [get_word_audio, extract_audio_and_ext, hq, hf]

lemma get_word_audio_no_records (word : List Char) (q_mdx : MdxQuerier) (q_mdd : MddQuerier)
    (r : TextRecord) (rs : List TextRecord) (raw_path extRaw : List Char)
    (hq : q_mdx word true = r :: rs)
    (hf : findAudioRef r.data = some (raw_path, extRaw))
    (hm : mddRecords q_mdd (mddKeyOf raw_path) = []) :
    get_word_audio word (some q_mdx) (some q_mdd) = HttpResult.notFound := by
  simp only [get_word_audio, extract_audio_and_ext, hq, hf, hm]

lemma get_word_audio_result (word : List Char) (q_mdx : MdxQuerier) (q_mdd : MddQuerier)
    (r : TextRecord) (rs : List TextRecord) (raw_path extRaw : List Char)
    (a : AudioRecord) (arest : List AudioRecord)
    (hq : q_mdx word true = r :: rs)
    (hf : findAudioRef r.data = some (raw_path, extRaw))
    (hm : mddRecords q_mdd (mddKeyOf raw_path) = a :: arest) :
    get_word_audio word (some q_mdx) (some q_mdd) =
      if a.data = [] ∨ lowerL extRaw = [] then HttpResult.notFound
      else HttpResult.ok a.data (mimeGet (lowerL extRaw)) := by
  simp only [get_word_audio, extract_audio_and_ext, hq, hf, hm]

/-- C1: the Binary Lookup Key derived from the matched audio reference
`sound://voc/D/apple.mp3` equals `\voc\D\apple.mp3`; the `sound:` scheme is
stripped case-insensitively (so `SOUND://` with doubled separators also
normalizes to the same key); and in general the key built in step 4 starts
with exactly one canonical separator, contains no run of consecutive
separators, and has every forward slash replaced. -/
theorem derived_key_normalized :
    findAudioRef (strL "<a href=\"sound://voc/D/apple.mp3\">play</a>") =
        some (strL "sound://voc/D/apple.mp3", strL "mp3")
    ∧ mddKeyOf (strL "sound://voc/D/apple.mp3") = strL "\\voc\\D\\apple.mp3"
    ∧ mddKeyOf (strL "SOUND://voc//D///apple.mp3") = strL "\\voc\\D\\apple.mp3"
    ∧ ∀ raw_path : List Char,
        (mddKeyOf raw_path).head? = some '\\'
        ∧ hasDoubleSep (mddKeyOf raw_path) = false
        ∧ '/' ∉ mddKeyOf raw_path := by
  refine ⟨by decide, by decide, by decide, fun raw_path => ⟨?_, ?_, ?_⟩⟩
  · exact mddKeyOf_head raw_path
  · exact mddKeyOf_noDouble raw_path
  · exact mddKeyOf_no_slash raw_path

/-- C8: neither the primary Binary Lookup Key nor the fallback key with the
leading separator stripped ever contains two consecutive separator
characters. -/
theorem lookup_keys_never_double_sep :
    ∀ raw_path : List Char,
      hasDoubleSep (mddKeyOf raw_path) = false
      ∧ hasDoubleSep (lstripBS (mddKeyOf raw_path)) = false := by
  intro raw_path
  exact ⟨mddKeyOf_noDouble raw_path, hasDoubleSep_dropWhile _ _ (mddKeyOf_noDouble raw_path)⟩

/-- C2 counterexample: for the payload `href="sound://a/b.MP3"` the matched
raw path keeps the upper-case extension, and the derived Binary Lookup Key is
`\a\b.MP3` — not the lowercased `\a\b.mp3` the claim requires — while the
extension value returned for MIME mapping is the lowercased `mp3`. -/
theorem ext_lowercased_in_key_counterexample :
    findAudioRef (strL "href=\"sound://a/b.MP3\"") =
        some (strL "sound://a/b.MP3", strL "MP3")
    ∧ mddKeyOf (strL "sound://a/b.MP3") = strL "\\a\\b.MP3"
    ∧ mddKeyOf (strL "sound://a/b.MP3") ≠ strL "\\a\\b.mp3" := by
  refine ⟨by decide, by decide, by decide⟩

/-- C2 amended: the matched extension is lowercased before it is returned for
MIME mapping (the extension handed back by the extractor is the lowercase
image of the matched group, hence one of `mp3`, `spx`, `wav`, `ogg`), but the
Binary Lookup Key is built from the raw matched path, whose extension keeps
its original case. -/
theorem ext_lowercased_for_mime_only :
    ∀ (word : List Char) (q_mdx : MdxQuerier) (q_mdd : MddQuerier)
      (b : List Nat) (e : List Char),
      extract_audio_and_ext word q_mdx q_mdd = (some b, some e) →
      e ∈ audioExts ∧
      ∃ r rs raw_path extRaw a arest,
        q_mdx word true = r :: rs
        ∧ findAudioRef r.data = some (raw_path, extRaw)
        ∧ e = lowerL extRaw
        ∧ mddRecords q_mdd (mddKeyOf raw_path) = a :: arest
        ∧ b = a.data := by
  intro word q_mdx q_mdd b e h
  obtain ⟨r, rs, raw_path, extRaw, a, arest, hq, hf, he, hm, hb⟩ := extract_eq_some h
  refine ⟨?_, r, rs, raw_path, extRaw, a, arest, hq, hf, he, hm, hb⟩
  rw [he]
  exact findAudioRef_ext_mem hf

/-- C7: a 200 response always carries the MIME type of the fixed table
applied to the extractor's lowercased extension; the table is exact on
`mp3`, `spx`, `wav`, `ogg` and every other extension maps to
`application/octet-stream`. -/
theorem mime_mapping_exact :
    (mimeGet (strL "mp3") = "audio/mpeg"
     ∧ mimeGet (strL "spx") = "audio/speex"
     ∧ mimeGet (strL "wav") = "audio/wav"
     ∧ mimeGet (strL "ogg") = "audio/ogg")
    ∧ (∀ e : List Char, e ∉ audioExts → mimeGet e = "application/octet-stream")
    ∧ ∀ (word : List Char) (q_mdx : MdxQuerier) (q_mdd : MddQuerier)
        (b : List Nat) (mt : String),
        get_word_audio word (some q_mdx) (some q_mdd) = HttpResult.ok b mt →
        ∃ e, e ∈ audioExts ∧ mt = mimeGet e := by
  refine ⟨⟨by decide, by decide, by decide, by decide⟩, ?_, ?_⟩
  · intro e he
    simp only [audioExts, List.mem_cons, List.not_mem_nil, or_false, not_or] at he
    obtain ⟨h1, h2, h3, h4⟩ := he
    simp [mimeGet, h1, h2, h3, h4]
  · intro word q_mdx q_mdd b mt h
    rw [get_word_audio] at h
    cases hx : extract_audio_and_ext word q_mdx q_mdd with
    | mk ob oe =>
      rw [hx] at h
      cases ob with
      | none => exact absurd h (by simp)
      | some bb =>
        cases oe with
        | none => exact absurd h (by simp)
        | some ee =>
          have h2 : (if bb = [] ∨ ee = [] then HttpResult.notFound
              else HttpResult.ok bb (mimeGet ee)) = HttpResult.ok b mt := h
          by_cases hemp : bb = [] ∨ ee = []
          · rw [if_pos hemp] at h2
            exact absurd h2 (by simp)
          · rw [if_neg hemp] at h2
            simp only [HttpResult.ok.injEq] at h2
            obtain ⟨r, rs, raw_path, extRaw, a, arest, hq, hf, he, hm, hb⟩ :=
              extract_eq_some hx
            refine ⟨ee, ?_, h2.2.symm⟩
            rw [he]
            exact findAudioRef_ext_mem hf

/-- C10: an empty-string header credential is falsy, so the guard falls
through to the query credential: an empty header together with a correct
non-empty query credential passes. -/
theorem empty_header_falls_through (s : String) (h : s ≠ "") :
    get_api_key (some "") (some s) (some s) = Except.ok s := by
  rw [get_api_key]
  have : pyOr (some "") (some s) = some s := by
    simp [pyOr, pyTruthy]
  rw [this]
  simp [h]

/-- C10 witness at a concrete credential. -/
theorem empty_header_falls_through_witness :
    get_api_key (some "") (some "passw0rd9") (some "passw0rd9") =
      Except.ok "passw0rd9" :=
  empty_header_falls_through "passw0rd9" (by decide)

/-- C4 counterexample: with a present-but-empty header credential and a
correct query credential, the guard passes — the claim requires the header
to win whenever both are present, which would give 403 here since the empty
header differs from the secret. -/
theorem key_guard_header_precedence_counterexample :
    get_api_key (some "") (some "sk12345") (some "sk12345") = Except.ok "sk12345"
    ∧ ("" : String) ≠ "sk12345" := by
  refine ⟨by decide, by decide⟩

/-- C4 amended: the guard passes exactly when the chosen credential is
non-empty and equals the expected secret, where the header credential is
chosen whenever it is present and non-empty (an absent or empty header falls
through to the query credential); in particular a wrong non-empty header
yields 403 even when the query credential is right. -/
theorem key_guard_amended :
    (∀ (h q k : Option String) (s : String),
        get_api_key h q k = Except.ok s ↔ (pyOr h q = some s ∧ s ≠ "" ∧ k = some s))
    ∧ (∀ (hk : String) (q : Option String), hk ≠ "" → pyOr (some hk) q = some hk)
    ∧ (∀ q : Option String, pyOr (some "") q = q ∧ pyOr none q = q)
    ∧ (∀ hk qk key : String, hk ≠ "" → hk ≠ key →
        get_api_key (some hk) (some qk) (some key) =
          Except.error "Invalid or missing API Key") := by
  have hiff : ∀ (h q k : Option String) (s : String),
      get_api_key h q k = Except.ok s ↔ (pyOr h q = some s ∧ s ≠ "" ∧ k = some s) := by
    intro h q k s
    rw [get_api_key]
    cases ht : pyOr h q with
    | none => simp
    | some t =>
      dsimp only
      by_cases h1 : t = "" ∨ k ≠ some t
      · rw [if_pos h1]
        simp only [Option.some.injEq]
        constructor
        · intro hc
          exact absurd hc (by simp)
        · rintro ⟨hts, hs, hk⟩
          subst hts
          rcases h1 with h1 | h1
          · exact absurd h1 hs
          · exact absurd hk h1
      · rw [if_neg h1]
        push_neg at h1
        simp only [Except.ok.injEq, Option.some.injEq]
        constructor
        · intro hts
          subst hts
          exact ⟨rfl, h1.1, h1.2⟩
        · rintro ⟨hts, _, _⟩
          exact hts
  refine ⟨hiff, ?_, ?_, ?_⟩
  · intro hk q hne
    simp [pyOr, pyTruthy, hne]
  · intro q
    constructor <;> simp [pyOr, pyTruthy]
  · intro hk qk key hne hwrong
    have htok : pyOr (some hk) (some qk) = some hk := by
      simp [pyOr, pyTruthy, hne]
    rw [get_api_key, htok]
    dsimp only
    rw [if_pos]
    right
    simp [Ne, hwrong]
    intro hc
    exact hwrong hc.symm

/-- C4 witness: the amended characterization at concrete inputs — a correct
non-empty header passes, a non-empty header is chosen over the query, and a
wrong non-empty header with a right query credential is rejected. -/
theorem key_guard_amended_witness :
    get_api_key (some "topsecret1") none (some "topsecret1") = Except.ok "topsecret1"
    ∧ pyOr (some "hdrkey99") (some "qrykey99") = some "hdrkey99"
    ∧ get_api_key (some "hdrwrong1") (some "rightkey9") (some "rightkey9") =
        Except.error "Invalid or missing API Key" :=
  ⟨(key_guard_amended.1 (some "topsecret1") none (some "topsecret1") "topsecret1").mpr
      ⟨by decide, by decide, by decide⟩,
    key_guard_amended.2.1 "hdrkey99" (some "qrykey99") (by decide),
    key_guard_amended.2.2.2 "hdrwrong1" "rightkey9" "rightkey9" (by decide) (by decide)⟩

/-- C3 counterexample: the received tokens `abcd` and `abcdX` agree on their
first 4 characters and differ afterwards, both fail the check against the
secret `supersecret`, yet the emitted log lines differ — a token of length
at most 4 is rendered in full through `repr` while a longer one is
truncated. -/
theorem truncated_log_counterexample :
    ("abcd" : String).take 4 = ("abcdX" : String).take 4
    ∧ get_api_key none (some "abcd") (some "supersecret") =
        Except.error "Invalid or missing API Key"
    ∧ get_api_key none (some "abcdX") (some "supersecret") =
        Except.error "Invalid or missing API Key"
    ∧ auth_failure_log (some "abcd") (some "supersecret") ≠
        auth_failure_log (some "abcdX") (some "supersecret") := by
  refine ⟨by decide, by decide, by decide, by decide⟩

/-- C3 amended: the failure log depends only on the first 4 characters of a
received token longer than 4 characters (shorter tokens are rendered in full
through `repr`) and only on the first 4 characters of a non-empty expected
secret: two failing runs whose tokens both exceed 4 characters and agree on
their first 4 characters, or whose non-empty expected secrets agree on their
first 4 characters, emit identical log lines. -/
theorem truncated_log_amended :
    (∀ (t1 t2 : String) (k : Option String), 4 < t1.length → 4 < t2.length →
        t1.take 4 = t2.take 4 →
        auth_failure_log (some t1) k = auth_failure_log (some t2) k)
    ∧ (∀ (t : Option String) (k1 k2 : String), k1 ≠ "" → k2 ≠ "" →
        k1.take 4 = k2.take 4 →
        auth_failure_log t (some k1) = auth_failure_log t (some k2)) := by
  constructor
  · intro t1 t2 k h1 h2 htake
    have hne1 : t1 ≠ "" := by
      intro hc
      rw [hc] at h1
      exact absurd h1 (by decide)
    have hne2 : t2 ≠ "" := by
      intro hc
      rw [hc] at h2
      exact absurd h2 (by decide)
    rw [auth_failure_log, auth_failure_log, tokenHint, tokenHint,
      if_pos ⟨hne1, h1⟩, if_pos ⟨hne2, h2⟩, htake]
  · intro t k1 k2 h1 h2 htake
    rw [auth_failure_log, auth_failure_log, expectedHint, expectedHint,
      if_pos h1, if_pos h2, htake]

/-- C3 witness: two concrete failing tokens longer than 4 characters agreeing
on their first 4 characters produce the same log line. -/
theorem truncated_log_amended_witness :
    auth_failure_log (some "abcde") (some "k1234567") =
      auth_failure_log (some "abcdf") (some "k1234567") :=
  truncated_log_amended.1 "abcde" "abcdf" (some "k1234567")
    (by decide) (by decide) (by decide)

/-- C5 counterexample: the primary-key lookup misses, the fallback lookup
returns one record — but that record's payload is empty, so the endpoint
responds 404 instead of the 200 the claim requires. -/
theorem fallback_success_counterexample :
    fbQdEmptyRec (mddKeyOf (strL "sound://voc/d/a.mp3")) false = []
    ∧ fbQdEmptyRec (lstripBS (mddKeyOf (strL "sound://voc/d/a.mp3"))) false =
        [AudioRecord.mk []]
    ∧ findAudioRef fbPayload = some (strL "sound://voc/d/a.mp3", strL "mp3")
    ∧ get_word_audio (strL "w") (some fbQx) (some fbQdEmptyRec) = HttpResult.notFound := by
  refine ⟨by decide, by decide, by decide, by decide⟩

/-- C5 amended: when the primary-key query returns zero records and the
fallback query on the separator-stripped key returns at least one record
whose payload is non-empty, the authorized request answers 200 with the
payload bytes of the first fallback record (an empty first payload instead
yields 404). -/
theorem fallback_success_amended :
    ∀ (hk qk ak : Option String) (tok : String) (word : List Char)
      (q_mdx : MdxQuerier) (q_mdd : MddQuerier) (r : TextRecord) (rs : List TextRecord)
      (raw_path extRaw : List Char) (a : AudioRecord) (arest : List AudioRecord),
      get_api_key hk qk ak = Except.ok tok →
      q_mdx word true = r :: rs →
      findAudioRef r.data = some (raw_path, extRaw) →
      q_mdd (mddKeyOf raw_path) false = [] →
      q_mdd (lstripBS (mddKeyOf raw_path)) false = a :: arest →
      a.data ≠ [] →
      handle_request hk qk ak word (some q_mdx) (some q_mdd) =
        HttpResult.ok a.data (mimeGet (lowerL extRaw)) := by
  intro hk qk ak tok word q_mdx q_mdd r rs raw_path extRaw a arest hauth hq hf hp hfb hd
  have hm : mddRecords q_mdd (mddKeyOf raw_path) = a :: arest := by
    simp only [mddRecords, hp, hfb]
  have hext : lowerL extRaw ≠ [] := mem_audioExts_ne_nil (findAudioRef_ext_mem hf)
  rw [handle_request_auth_ok hauth,
    get_word_audio_result word q_mdx q_mdd r rs raw_path extRaw a arest hq hf hm,
    if_neg]
  rintro (h | h)
  · exact hd h
  · exact hext h

/-- C5 witness: the amended fallback path at concrete engines — the primary
key misses, the fallback record carries `[3, 4]`, and the response is the
200 with those bytes and the `mp3` MIME type. -/
theorem fallback_success_amended_witness :
    handle_request none (some "k1") (some "k1") (strL "w") (some fbQx) (some fbQdGood) =
      HttpResult.ok [3, 4] (mimeGet (lowerL (strL "mp3"))) :=
  fallback_success_amended none (some "k1") (some "k1") "k1" (strL "w") fbQx fbQdGood
    ⟨fbPayload⟩ [] (strL "sound://voc/d/a.mp3") (strL "mp3") ⟨[3, 4]⟩ []
    (by decide) (by decide) (by decide) (by decide) (by decide) (by decide)

/-- C9: when the binary lookup pipeline returns a first record whose payload
is the empty byte string, the authorized request with initialized engines
answers 404, not 200 with an empty body. -/
theorem empty_payload_yields_404 :
    ∀ (hk qk ak : Option String) (tok : String) (word : List Char)
      (q_mdx : MdxQuerier) (q_mdd : MddQuerier) (r : TextRecord) (rs : List TextRecord)
      (raw_path extRaw : List Char) (a : AudioRecord) (arest : List AudioRecord),
      get_api_key hk qk ak = Except.ok tok →
      q_mdx word true = r :: rs →
      findAudioRef r.data = some (raw_path, extRaw) →
      mddRecords q_mdd (mddKeyOf raw_path) = a :: arest →
      a.data = [] →
      handle_request hk qk ak word (some q_mdx) (some q_mdd) = HttpResult.notFound := by
  intro hk qk ak tok word q_mdx q_mdd r rs raw_path extRaw a arest hauth hq hf hm hd
  rw [handle_request_auth_ok hauth,
    get_word_audio_result word q_mdx q_mdd r rs raw_path extRaw a arest hq hf hm,
    if_pos (Or.inl hd)]

/-- C9 witness: a concrete authorized request whose binary lookup succeeds
with an empty payload is answered 404. -/
theorem empty_payload_yields_404_witness :
    handle_request none (some "k1") (some "k1") (strL "w") (some fbQx)
      (some alwaysEmptyRecQd) = HttpResult.notFound :=
  empty_payload_yields_404 none (some "k1") (some "k1") "k1" (strL "w") fbQx
    alwaysEmptyRecQd ⟨fbPayload⟩ [] (strL "sound://voc/d/a.mp3") (strL "mp3") ⟨[]⟩ []
    (by decide) (by decide) (by decide) (by decide) (by decide)

/-- C6 counterexample: the word is present in the text archive, the payload
carries an audio reference, and the binary lookup returns a record — none of
the claim's three 404 causes holds — yet the endpoint answers 404, because
the returned record's payload is empty. -/
theorem notFound_three_causes_counterexample :
    get_word_audio (strL "w") (some fbQx) (some alwaysEmptyRecQd) = HttpResult.notFound
    ∧ fbQx (strL "w") true ≠ []
    ∧ findAudioRef fbPayload = some (strL "sound://voc/d/a.mp3", strL "mp3")
    ∧ alwaysEmptyRecQd (mddKeyOf (strL "sound://voc/d/a.mp3")) false ≠ [] := by
  refine ⟨by decide, by decide, by decide, by decide⟩

/-- C6 amended: an authorized request with initialized engines answers 404
exactly when the word yields zero text records, or the first text record has
no supported audio reference, or the binary lookup misses on both the
primary and the separator-stripped key, or the binary lookup returns a first
record whose payload is empty. -/
theorem notFound_causes_amended :
    ∀ (hk qk ak : Option String) (tok : String) (word : List Char)
      (q_mdx : MdxQuerier) (q_mdd : MddQuerier),
      get_api_key hk qk ak = Except.ok tok →
      (handle_request hk qk ak word (some q_mdx) (some q_mdd) = HttpResult.notFound ↔
        (q_mdx word true = []
         ∨ ∃ r rs, q_mdx word true = r :: rs ∧
            (findAudioRef r.data = none
             ∨ ∃ raw_path extRaw, findAudioRef r.data = some (raw_path, extRaw) ∧
                ((q_mdd (mddKeyOf raw_path) false = []
                  ∧ q_mdd (lstripBS (mddKeyOf raw_path)) false = [])
                 ∨ ∃ a arest, mddRecords q_mdd (mddKeyOf raw_path) = a :: arest
                     ∧ a.data = [])))) := by
  intro hk qk ak tok word q_mdx q_mdd hauth
  rw [handle_request_auth_ok hauth word (some q_mdx) (some q_mdd)]
  cases hq : q_mdx word true with
  | nil =>
    rw [get_word_audio_no_mdx word q_mdx q_mdd hq]
    simp
  | cons r rs =>
    cases hf : findAudioRef r.data with
    | none =>
      rw [get_word_audio_no_match word q_mdx q_mdd r rs hq hf]
      constructor
      · intro _
        exact Or.inr ⟨r, rs, rfl, Or.inl hf⟩
      · intro _
        rfl
    | some pe =>
      obtain ⟨raw_path, extRaw⟩ := pe
      cases hm : mddRecords q_mdd (mddKeyOf raw_path) with
      | nil =>
        rw [get_word_audio_no_records word q_mdx q_mdd r rs raw_path extRaw hq hf hm]
        constructor
        · intro _
          exact Or.inr ⟨r, rs, rfl, Or.inr ⟨raw_path, extRaw, hf,
            Or.inl ((mddRecords_eq_nil_iff q_mdd (mddKeyOf raw_path)).mp hm)⟩⟩
        · intro _
          rfl
      | cons a arest =>
        rw [get_word_audio_result word q_mdx q_mdd r rs raw_path extRaw a arest hq hf hm]
        have hext : lowerL extRaw ≠ [] := mem_audioExts_ne_nil (findAudioRef_ext_mem hf)
        constructor
        · intro hif
          by_cases hd : a.data = []
          · exact Or.inr ⟨r, rs, rfl, Or.inr ⟨raw_path, extRaw, hf,
              Or.inr ⟨a, arest, hm, hd⟩⟩⟩
          · have hcond : ¬(a.data = [] ∨ lowerL extRaw = []) := by
              rintro (h | h)
              · exact hd h
              · exact hext h
            rw [if_neg hcond] at hif
            exact absurd hif (by simp)
        · intro hrhs
          rcases hrhs with h | ⟨r2, rs2, hrr, hin⟩
          · exact absurd h (by simp)
          · injection hrr with hr2 hrs2
            subst hr2
            rcases hin with hfn | ⟨raw2, ext2, hf2, hrest⟩
            · rw [hf] at hfn
              exact absurd hfn (by simp)
            · rw [hf] at hf2
              simp only [Option.some.injEq, Prod.mk.injEq] at hf2
              obtain ⟨hraw2, hext2⟩ := hf2
              subst hraw2
              rcases hrest with ⟨hp2, hfb2⟩ | ⟨a2, arest2, hm2, hd2⟩
              · have : mddRecords q_mdd (mddKeyOf raw_path) = [] :=
                  (mddRecords_eq_nil_iff q_mdd (mddKeyOf raw_path)).mpr ⟨hp2, hfb2⟩
                rw [hm] at this
                exact absurd this (by simp)
              · rw [hm] at hm2
                injection hm2 with ha2 harest2
                subst ha2
                rw [if_pos (Or.inl hd2)]

/-- C2 witness: the amended extraction characterization at concrete engines
whose fallback lookup succeeds with the bytes `[3, 4]`. -/
theorem ext_lowercased_for_mime_only_witness :
    extract_audio_and_ext (strL "w") fbQx fbQdGood = (some [3, 4], some (strL "mp3"))
    ∧ ((strL "mp3") ∈ audioExts ∧
        ∃ r rs raw_path extRaw a arest,
          fbQx (strL "w") true = r :: rs
          ∧ findAudioRef r.data = some (raw_path, extRaw)
          ∧ strL "mp3" = lowerL extRaw
          ∧ mddRecords fbQdGood (mddKeyOf raw_path) = a :: arest
          ∧ [3, 4] = a.data) :=
  ⟨by decide,
    ext_lowercased_for_mime_only (strL "w") fbQx fbQdGood [3, 4] (strL "mp3") (by decide)⟩

/-- C7 witness: a concrete 200 response whose `Content-Type` is the table
image of a lowercased supported extension. -/
theorem mime_mapping_witness :
    get_word_audio (strL "w") (some fbQx) (some fbQdGood) =
      HttpResult.ok [3, 4] "audio/mpeg"
    ∧ ∃ e, e ∈ audioExts ∧ ("audio/mpeg" : String) = mimeGet e :=
  ⟨by decide,
    mime_mapping_exact.2.2 (strL "w") fbQx fbQdGood [3, 4] "audio/mpeg" (by decide)⟩

/-- C6 witness: the amended four-cause characterization at a concrete
unauthorized-free request whose word is absent from the text archive. -/
theorem notFound_causes_amended_witness :
    handle_request none (some "k1") (some "k1") (strL "w") (some emptyQx)
        (some alwaysEmptyRecQd) = HttpResult.notFound ↔
      (emptyQx (strL "w") true = []
       ∨ ∃ r rs, emptyQx (strL "w") true = r :: rs ∧
          (findAudioRef r.data = none
           ∨ ∃ raw_path extRaw, findAudioRef r.data = some (raw_path, extRaw) ∧
              ((alwaysEmptyRecQd (mddKeyOf raw_path) false = []
                ∧ alwaysEmptyRecQd (lstripBS (mddKeyOf raw_path)) false = [])
               ∨ ∃ a arest, mddRecords alwaysEmptyRecQd (mddKeyOf raw_path) = a :: arest
                   ∧ a.data = []))) :=
  notFound_causes_amended none (some "k1") (some "k1") "k1" (strL "w") emptyQx
    alwaysEmptyRecQd (by decide)

end MdictAudio
